import Mathlib

/-!
Verification of the FAI (faidx) indexing core of the rust-samtools repository.

The development shallowly embeds the code of `src/io/fai/indexer.rs`,
`src/io/fai/mod.rs`, `src/io/fai/reader.rs`, `src/io/common/mod.rs` and
`src/errors.rs`.  A byte stream is a `List Nat` of byte values; the buffered
reader (a `BufReader` over an in-memory cursor) is modelled as the full byte
list together with a logical read position, so `stream_position` is the
position and `consume n` advances the position by at most the remaining
length (the internal buffer is modelled as holding the entire stream).
Fallible operations return `Except Error`.
-/

set_option maxRecDepth 100000

namespace RustSamtools

/-- Error kinds, from `src/errors.rs` (`IO` is rendered `IOErr` here). -/
inductive ErrorKind where
  | Input
  | IOErr
  | Eof
  | TypeConversion
  | User
  | Unknown
deriving DecidableEq, Repr

/-- The crate's error type, from `src/errors.rs`. -/
structure Error where
  kind : ErrorKind
  message : String
deriving DecidableEq, Repr

/-- `Result<T>` from `src/errors.rs`. -/
abbrev Result (α : Type) := Except Error α

instance {ε α : Type} [DecidableEq ε] [DecidableEq α] : DecidableEq (Except ε α) := fun x y =>
  match x, y with
  | .ok a, .ok b =>
    if h : a = b then .isTrue (by rw [h]) else .isFalse (by intro hc; cases hc; exact h rfl)
  | .error a, .error b =>
    if h : a = b then .isTrue (by rw [h]) else .isFalse (by intro hc; cases hc; exact h rfl)
  | .ok _, .error _ => .isFalse (by intro hc; cases hc)
  | .error _, .ok _ => .isFalse (by intro hc; cases hc)

/-- `Format` from `src/io/fai/indexer.rs`. -/
inductive Format where
  | FASTA
  | FASTQ
deriving DecidableEq, Repr

/-- `Format::description_prefix` (renamed: the description header byte). -/
def Format.description_byte : Format → Nat
  | .FASTA => 62
  | .FASTQ => 64

/-- `Format::sequence_end_marker` (renamed: the sequence end byte). -/
def Format.sequence_end_byte : Format → Nat
  | .FASTA => Format.description_byte .FASTA
  | .FASTQ => 43

/-- The Fai `Record` from `src/io/fai/mod.rs`; `usize`/`u64` fields are
modelled as `Nat`. -/
structure Record where
  name : String
  length : Nat
  offset : Nat
  line_bases : Nat
  line_width : Nat
  qual_offset : Option Nat
deriving DecidableEq, Repr

/-- `Record::new` / `Record::default`. -/
def Record.new : Record := ⟨"", 0, 0, 0, 0, none⟩

/-- `Record::clear`: reset every field (same result as a fresh record). -/
def Record.clear (_ : Record) : Record := Record.new

/-! ## UTF-8 and whitespace primitives

`String::from_utf8` / `std::str::from_utf8` and `str::trim` from the Rust
standard library, used by `src/io/common/mod.rs`. -/

/-- Standard UTF-8 decoding of a byte list into characters, `none` on any
invalid encoding (continuation errors, overlongs, surrogates, > U+10FFFF). -/
def utf8Decode : List Nat → Option (List Char)
  | [] => some []
  | b :: rest =>
    if b < 0x80 then
      match utf8Decode rest with
      | some cs => some (Char.ofNat b :: cs)
      | none => none
    else if b < 0xC2 then none
    else if b < 0xE0 then
      match rest with
      | c :: rest2 =>
        if 0x80 ≤ c ∧ c < 0xC0 then
          match utf8Decode rest2 with
          | some cs => some (Char.ofNat ((b - 0xC0) * 0x40 + (c - 0x80)) :: cs)
          | none => none
        else none
      | [] => none
    else if b < 0xF0 then
      match rest with
      | c :: d :: rest3 =>
        if (0x80 ≤ c ∧ c < 0xC0) ∧ (0x80 ≤ d ∧ d < 0xC0)
            ∧ (b = 0xE0 → 0xA0 ≤ c) ∧ (b = 0xED → c < 0xA0) then
          match utf8Decode rest3 with
          | some cs =>
            some (Char.ofNat ((b - 0xE0) * 0x1000 + (c - 0x80) * 0x40 + (d - 0x80)) :: cs)
          | none => none
        else none
      | _ => none
    else if b < 0xF5 then
      match rest with
      | c :: d :: e :: rest4 =>
        if (0x80 ≤ c ∧ c < 0xC0) ∧ (0x80 ≤ d ∧ d < 0xC0) ∧ (0x80 ≤ e ∧ e < 0xC0)
            ∧ (b = 0xF0 → 0x90 ≤ c) ∧ (b = 0xF4 → c < 0x90) then
          match utf8Decode rest4 with
          | some cs =>
            some (Char.ofNat
              ((b - 0xF0) * 0x40000 + (c - 0x80) * 0x1000 + (d - 0x80) * 0x40 + (e - 0x80)) :: cs)
          | none => none
        else none
      | _ => none
    else none

/-- Rust `char::is_whitespace` (the Unicode White_Space property). -/
def rustIsWhitespace (c : Char) : Bool :=
  decide (c.toNat = 0x20 ∨ (0x9 ≤ c.toNat ∧ c.toNat ≤ 0xD) ∨ c.toNat = 0x85
    ∨ c.toNat = 0xA0 ∨ c.toNat = 0x1680 ∨ (0x2000 ≤ c.toNat ∧ c.toNat ≤ 0x200A)
    ∨ c.toNat = 0x2028 ∨ c.toNat = 0x2029 ∨ c.toNat = 0x202F ∨ c.toNat = 0x205F
    ∨ c.toNat = 0x3000)

/-- Rust `str::trim`: drop whitespace from both ends. -/
def trimChars (cs : List Char) : List Char :=
  ((cs.dropWhile rustIsWhitespace).reverse.dropWhile rustIsWhitespace).reverse

/-- Number of bytes of the UTF-8 encoding of a character (Rust `char::len_utf8`). -/
def utf8CharSize (c : Char) : Nat :=
  if c.toNat < 0x80 then 1 else if c.toNat < 0x800 then 2
  else if c.toNat < 0x10000 then 3 else 4

/-- Byte length of a character list as a UTF-8 `str` (Rust `str::len`). -/
def utf8Len (cs : List Char) : Nat := (cs.map utf8CharSize).sum

/-! ## `src/io/common/mod.rs` -/

/-- Rust `char`-split on the space character, as `str::split(' ')` produces
its fields (an empty input produces one empty field). -/
def splitSpace : List Char → List (List Char)
  | [] => [[]]
  | c :: rest =>
    if c = ' ' then [] :: splitSpace rest
    else
      match splitSpace rest with
      | g :: gs => (c :: g) :: gs
      | [] => [[c]]

/-- `common::parse_sequence_name`: trim, split on space, take the first
field, trim again. -/
def parse_sequence_name (cs : List Char) : List Char :=
  trimChars (((splitSpace (trimChars cs)).take 1).flatten)

/-- `common::count_bases`: UTF-8 validate, trim, byte length of the rest. -/
def count_bases (line : List Nat) : Result Nat :=
  match utf8Decode line with
  | none => .error ⟨.TypeConversion, "invalid utf-8"⟩
  | some cs => .ok (utf8Len (trimChars cs))

/-- The bytes of one line: everything up to and including the first `\n`
byte, or the whole list when no `\n` occurs (Rust `read_until(b'\n', ..)`). -/
def takeLine : List Nat → List Nat
  | [] => []
  | b :: rest => if b = 10 then [b] else b :: takeLine rest

/-! ## The indexer state, `src/io/fai/indexer.rs` -/

/-- `Indexer`: the buffered reader is modelled by the full input byte list
plus the logical stream position. -/
structure Indexer where
  input : List Nat
  pos : Nat
  format : Format
  buffer : List Nat
  sequence_num_bytes : Nat
  eof : Bool
deriving DecidableEq, Repr

/-- `Indexer::new`. -/
def Indexer.new (input : List Nat) (format : Format) : Indexer :=
  ⟨input, 0, format, [], 0, false⟩

/-- `common::read_line` applied to the indexer's reader and buffer: append
one line to the buffer, or an `Eof` error when no bytes remain. -/
def common_read_line (s : Indexer) : Result (Nat × Indexer) :=
  if (takeLine (s.input.drop s.pos)).length = 0 then .error ⟨.Eof, "end of file"⟩
  else
    .ok ((takeLine (s.input.drop s.pos)).length,
      { s with pos := s.pos + (takeLine (s.input.drop s.pos)).length,
               buffer := s.buffer ++ takeLine (s.input.drop s.pos) })

/-- `is_description`: does the line start with the format's header byte. -/
def is_description (line : List Nat) (format : Format) : Bool :=
  List.isPrefixOf [format.description_byte] line

/-- `is_sequence_end`: does the line start with the format's end marker. -/
def is_sequence_end (line : List Nat) (format : Format) : Bool :=
  List.isPrefixOf [format.sequence_end_byte] line

/-- `get_name`: require the header byte, then parse the name from the rest
of the line. -/
def get_name (description : List Nat) (format : Format) : Result String :=
  if is_description description format then
    match utf8Decode (description.drop 1) with
    | none => .error ⟨.TypeConversion, "invalid utf-8"⟩
    | some cs => .ok ⟨parse_sequence_name cs⟩
  else .error ⟨.Input, "invalid input format"⟩

/-- `Indexer::read_line`: the two-tier end-of-file latch.  The first `Eof`
from the underlying reader is converted to an empty (0 byte) line and sets
the `eof` flag; later ones are returned as errors. -/
def Indexer.read_line (s : Indexer) : Result (Nat × Indexer) :=
  match common_read_line s with
  | .error e =>
    if e.kind = .Eof then
      if s.eof then .error e else .ok (0, { s with eof := true })
    else .error e
  | .ok r => .ok r

/-- `Indexer::read_description`: fill the buffer if empty, extract the
name, record the stream position as the offset, clear the buffer. -/
def Indexer.read_description (s : Indexer) (r : Record) : Result (Indexer × Record) :=
  match (if s.buffer.isEmpty then (Indexer.read_line s).map (fun p => p.2) else .ok s) with
  | .error e => .error e
  | .ok s =>
    match get_name s.buffer s.format with
    | .error e => .error e
    | .ok name => .ok ({ s with buffer := [] }, { r with name := name, offset := s.pos })

/-- `Indexer::read_sequence_line`: clear the buffer, read one line, pass a
sequence end marker through, otherwise establish or check the line width
and accumulate byte and base counts. -/
def Indexer.read_sequence_line (s : Indexer) (r : Record) : Result (Indexer × Record) :=
  match Indexer.read_line { s with buffer := [] } with
  | .error e => .error e
  | .ok (num_bytes, s) =>
    if is_sequence_end s.buffer s.format then .ok (s, r)
    else
      match (if r.line_width = 0 then
               match count_bases s.buffer with
               | .error e => .error e
               | .ok lb => .ok { r with line_width := num_bytes, line_bases := lb }
             else if r.line_width < num_bytes then
               (.error ⟨.Input, "invalid record"⟩ : Result Record)
             else .ok r) with
      | .error e => .error e
      | .ok r =>
        match count_bases s.buffer with
        | .error e => .error e
        | .ok cb =>
          .ok ({ s with sequence_num_bytes := s.sequence_num_bytes + num_bytes },
               { r with length := r.length + cb })

/-- The loop of `Indexer::read_sequence`, with a fuel bound on the number
of iterations (the caller supplies enough fuel for any input). -/
def Indexer.read_sequence_go : Nat → Indexer → Record → Result (Indexer × Record)
  | 0, _, _ => .error ⟨.Unknown, "out of fuel"⟩
  | fuel + 1, s, r =>
    if is_sequence_end s.buffer s.format ∨ s.eof then .ok (s, r)
    else
      match Indexer.read_sequence_line s r with
      | .error e => .error e
      | .ok (s, r) => Indexer.read_sequence_go fuel s r

/-- `Indexer::read_sequence`: reset the sequence byte counter and loop.
Every successful iteration consumes at least one input byte or sets the
`eof` flag, so `input.length + 2` iterations always suffice. -/
def Indexer.read_sequence (s : Indexer) (r : Record) : Result (Indexer × Record) :=
  Indexer.read_sequence_go (s.input.length + 2) { s with sequence_num_bytes := 0 } r

/-- `Indexer::read_plus`: no-op for FASTA; for FASTQ record the stream
position as the quality offset and clear the buffer. -/
def Indexer.read_plus (s : Indexer) (r : Record) : Result (Indexer × Record) :=
  if s.format = .FASTA then .ok (s, r)
  else .ok ({ s with buffer := [] }, { r with qual_offset := some s.pos })

/-- `BufReader::consume`: advance by at most the buffered remainder (the
model holds the whole stream in the buffer). -/
def Indexer.consume (s : Indexer) (amt : Nat) : Indexer :=
  { s with pos := min (s.pos + amt) s.input.length }

/-- `Indexer::read_quality`: no-op for FASTA; for FASTQ skip the counted
sequence bytes and read one further line. -/
def Indexer.read_quality (s : Indexer) : Result Indexer :=
  if s.format = .FASTA then .ok s
  else
    match Indexer.read_line (s.consume s.sequence_num_bytes) with
    | .error e => .error e
    | .ok (_, s) => .ok s

/-- `<Indexer as ReadToFai>::read`: the four phases in order. -/
def Indexer.read (s : Indexer) (r : Record) : Result (Indexer × Record) :=
  match Indexer.read_description s r with
  | .error e => .error e
  | .ok (s, r) =>
    match Indexer.read_sequence s r with
    | .error e => .error e
    | .ok (s, r) =>
      match Indexer.read_plus s r with
      | .error e => .error e
      | .ok (s, r) =>
        match Indexer.read_quality s with
        | .error e => .error e
        | .ok s => .ok (s, r)

/-- `<Records as Iterator>::next` specialised to the indexer: a fresh
record is read; an `Eof`-kind error ends the iteration, anything else is
yielded. -/
def Records.next (s : Indexer) : Option (Result (Record × Indexer)) :=
  match Indexer.read s Record.new with
  | .ok (s, r) => some (.ok (r, s))
  | .error e => if e.kind = .Eof then none else some (.error e)

/-! ## Concrete inputs (the samtools faidx documentation examples, as in
the indexer's tests) -/

/-- Bytes of an ASCII string. -/
def strBytes (s : String) : List Nat := s.toList.map Char.toNat

/-- The canonical two-record FASTA example input. -/
def fastaInput : List Nat :=
  strBytes ">one\nATGCATGCATGCATGCATGCATGCATGCAT\nGCATGCATGCATGCATGCATGCATGCATGC\nATGCAT\n>two another chromosome\nATGCATGCATGCAT\nGCATGCATGCATGC\n"

/-- The canonical two-record FASTQ example input (no trailing newline). -/
def fastqInput : List Nat :=
  strBytes "@fastq1\nATGCATGCATGCATGCATGCATGCATGCAT\nGCATGCATGCATGCATGCATGCATGCATGC\nATGCAT\n+\nFFFA@@FFFFFFFFFFHHB:::@BFFFFGG\nHIHIIIIIIIIIIIIIIIIIIIIIIIFFFF\n8011<<\n@fastq2\nATGCATGCATGCAT\nGCATGCATGCATGC\n+\nIIA94445EEII==\n=>IIIIIIIIICCC"

/-- Two successive `Indexer::read` calls on the FASTA example, as the
indexer's own test performs them (clearing the record in between). -/
def fastaRun : Result (Record × Record) :=
  match Indexer.read (Indexer.new fastaInput .FASTA) Record.new with
  | .error e => .error e
  | .ok (s, r1) =>
    match Indexer.read s r1.clear with
    | .error e => .error e
    | .ok (_, r2) => .ok (r1, r2)

/-! ## The index record codec, `src/io/fai/mod.rs` and `src/io/fai/reader.rs`

A `csv::StringRecord` is modelled as a `List String` of its fields.  The
numeric serialisation uses decimal digit strings (`ToString` on the Rust
integer types); deserialisation of a numeric field accepts a non-empty
digit string, and an `Option` field additionally accepts the empty string
as `None` (the `csv`/`serde` behaviour the code relies on). -/

/-- The decimal digit character of `d % 10`. -/
def digitChr (d : Nat) : Char :=
  match d % 10 with
  | 0 => '0' | 1 => '1' | 2 => '2' | 3 => '3' | 4 => '4'
  | 5 => '5' | 6 => '6' | 7 => '7' | 8 => '8' | _ => '9'

/-- Little-endian decimal digits of a number (empty for 0). -/
def natDigitsLE : Nat → List Char
  | 0 => []
  | n + 1 => digitChr ((n + 1) % 10) :: natDigitsLE ((n + 1) / 10)
decreasing_by exact Nat.div_lt_self (Nat.succ_pos n) (by omega)

/-- Decimal rendering of a number (Rust `ToString` on unsigned integers). -/
def natToString (n : Nat) : String :=
  if n = 0 then "0" else ⟨(natDigitsLE n).reverse⟩

/-- Parse a decimal digit string (Rust unsigned integer `FromStr` via the
csv deserializer, restricted to the canonical digit form). -/
def parseNatStr (f : String) : Option Nat :=
  if f.toList ≠ [] ∧ f.toList.all Char.isDigit then
    some (f.toList.foldl (fun a c => a * 10 + (c.toNat - 48)) 0)
  else none

/-- Parse an optional numeric field: the empty field is `None`. -/
def parseOptNatStr (f : String) : Option (Option Nat) :=
  if f.toList = [] then some none
  else
    match parseNatStr f with
    | some n => some (some n)
    | none => none

/-- `record.deserialize(None)` into the six `Record` fields; any shape or
field-parse failure is an Input-kind error (`From<csv::Error>`). -/
def deserializeRecord (ls : List String) : Result Record :=
  match ls with
  | [name, l, o, lb, lw, q] =>
    match parseNatStr l, parseNatStr o, parseNatStr lb, parseNatStr lw, parseOptNatStr q with
    | some l, some o, some lb, some lw, some qo => .ok ⟨name, l, o, lb, lw, qo⟩
    | _, _, _, _, _ => .error ⟨.Input, "deserialize error"⟩
  | _ => .error ⟨.Input, "deserialize error"⟩

/-- `Record::to_string_record`: the five fields, plus the quality offset
when present. -/
def Record.to_string_record (r : Record) : List String :=
  [r.name, natToString r.length, natToString r.offset,
   natToString r.line_bases, natToString r.line_width] ++
    (match r.qual_offset with
     | some q => [natToString q]
     | none => [])

/-- `Record::try_from(&mut csv::StringRecord)`: reject more than 6 fields,
pad a 5-field record with an empty field (mutating the caller's record),
then deserialize.  The mutated field list is returned alongside the
result. -/
def Record.try_from (ls : List String) : Result Record × List String :=
  if ls.length > 6 then (.error ⟨.Input, "invalid fai format"⟩, ls)
  else
    let ls := if ls.length = 5 then ls ++ [""] else ls
    (deserializeRecord ls, ls)

/-- Two successive `Indexer::read` calls on the FASTQ example. -/
def fastqRun : Result (Record × Record) :=
  match Indexer.read (Indexer.new fastqInput .FASTQ) Record.new with
  | .error e => .error e
  | .ok (s, r1) =>
    match Indexer.read s r1.clear with
    | .error e => .error e
    | .ok (_, r2) => .ok (r1, r2)

/-! ## Spec-side helper definitions -/

/-- Value of a little-endian digit list (spec-side, for the codec proofs). -/
def valLE : List Char → Nat
  | [] => 0
  | c :: t => (c.toNat - 48) + 10 * valLE t

/-- The sequence name as the spec describes it once amended: trim the text,
cut at the first space character, trim the cut.  Stated independently of
`parse_sequence_name` (which goes through `splitSpace`). -/
def specSequenceName (cs : List Char) : List Char :=
  trimChars ((trimChars cs).takeWhile (fun c => c ≠ ' '))

/-! ## Helper lemmas for the codec -/

theorem digitChr_toNat (d : Nat) : (digitChr d).toNat = 48 + d % 10 := by
  have h : d % 10 < 10 := Nat.mod_lt _ (by omega)
  unfold digitChr
  generalize d % 10 = k at h ⊢
  interval_cases k <;> rfl

theorem digitChr_isDigit (d : Nat) : (digitChr d).isDigit = true := by
  have h : d % 10 < 10 := Nat.mod_lt _ (by omega)
  unfold digitChr
  generalize d % 10 = k at h ⊢
  interval_cases k <;> rfl

theorem natDigitsLE_ne_nil (n : Nat) (h : n ≠ 0) : natDigitsLE n ≠ [] := by
  match n, h with
  | m + 1, _ => rw [natDigitsLE]; exact List.cons_ne_nil _ _

theorem natDigitsLE_all_digits (n : Nat) : (natDigitsLE n).all Char.isDigit = true := by
  induction n using Nat.strong_induction_on with
  | _ n ih =>
    match n with
    | 0 => rw [natDigitsLE]; rfl
    | m + 1 =>
      rw [natDigitsLE]
      simp only [List.all_cons, Bool.and_eq_true, digitChr_isDigit, true_and]
      exact ih ((m + 1) / 10) (Nat.div_lt_self (Nat.succ_pos m) (by omega))

theorem valLE_natDigitsLE (n : Nat) : valLE (natDigitsLE n) = n := by
  induction n using Nat.strong_induction_on with
  | _ n ih =>
    match n with
    | 0 => rw [natDigitsLE]; rfl
    | m + 1 =>
      rw [natDigitsLE]
      simp only [valLE, digitChr_toNat]
      have hd := ih ((m + 1) / 10) (Nat.div_lt_self (Nat.succ_pos m) (by omega))
      omega

theorem foldl_digits_reverse (ds : List Char) (a : Nat) :
    ds.reverse.foldl (fun a c => a * 10 + (c.toNat - 48)) a = a * 10 ^ ds.length + valLE ds := by
  induction ds generalizing a with
  | nil => simp [valLE]
  | cons c t ih =>
    simp only [List.reverse_cons, List.foldl_append, List.foldl_cons, List.foldl_nil, ih,
      valLE, List.length_cons]
    ring

theorem parseNatStr_natToString (n : Nat) : parseNatStr (natToString n) = some n := by
  by_cases h : n = 0
  · subst h; decide
  · unfold natToString parseNatStr
    rw [if_neg h]
    have htl : (String.mk (natDigitsLE n).reverse).toList = (natDigitsLE n).reverse := rfl
    rw [if_pos]
    · rw [htl, foldl_digits_reverse]
      simp [valLE_natDigitsLE]
    · constructor
      · rw [htl]
        simp only [ne_eq, List.reverse_eq_nil_iff]
        exact natDigitsLE_ne_nil n h
      · rw [htl, List.all_reverse]
        exact natDigitsLE_all_digits n

theorem natToString_toList_ne_nil (n : Nat) : (natToString n).toList ≠ [] := by
  by_cases h : n = 0
  · subst h; decide
  · unfold natToString
    rw [if_neg h]
    have htl : (String.mk (natDigitsLE n).reverse).toList = (natDigitsLE n).reverse := rfl
    rw [htl]
    simp only [ne_eq, List.reverse_eq_nil_iff]
    exact natDigitsLE_ne_nil n h

theorem parseOptNatStr_natToString (n : Nat) :
    parseOptNatStr (natToString n) = some (some n) := by
  unfold parseOptNatStr
  rw [if_neg (natToString_toList_ne_nil n), parseNatStr_natToString]

/-! ## Claim theorems -/

/-- C1: on the canonical two-record FASTA input, two successive
`Indexer::read` calls succeed and populate the record first as
`{name: "one", length: 66, offset: 5, line_bases: 30, line_width: 31,
qual_offset: None}` and then as `{name: "two", length: 28, offset: 98,
line_bases: 14, line_width: 15, qual_offset: None}`. -/
theorem indexer_fasta_canonical_two_records :
    fastaRun = .ok (⟨"one", 66, 5, 30, 31, none⟩, ⟨"two", 28, 98, 14, 15, none⟩) := by
  decide

/-- C10: `Record::try_from` mutates its input string record: a 5-field
input has an empty 6th field appended, a 6-field input is left unchanged. -/
theorem try_from_mutates_five_field_input (ls : List String) :
    (ls.length = 5 → (Record.try_from ls).2 = ls ++ [""]) ∧
    (ls.length = 6 → (Record.try_from ls).2 = ls) := by
  constructor
  · intro h5
    unfold Record.try_from
    rw [if_neg (by omega), if_pos h5]
  · intro h6
    unfold Record.try_from
    rw [if_neg (by omega), if_neg (by omega)]

theorem try_from_five_fields (a b c d e : String) :
    Record.try_from [a, b, c, d, e] = (deserializeRecord [a, b, c, d, e, ""], [a, b, c, d, e, ""]) :=
  rfl

theorem try_from_six_fields (a b c d e f : String) :
    Record.try_from [a, b, c, d, e, f] = (deserializeRecord [a, b, c, d, e, f], [a, b, c, d, e, f]) :=
  rfl

theorem parseOptNatStr_empty : parseOptNatStr "" = some none := by decide

theorem deserializeRecord_ne_six (ls : List String) (h : ls.length ≠ 6) :
    deserializeRecord ls = .error ⟨.Input, "deserialize error"⟩ := by
  rcases ls with _ | ⟨a, _ | ⟨b, _ | ⟨c, _ | ⟨d, _ | ⟨e, _ | ⟨f, _ | ⟨g, rest⟩⟩⟩⟩⟩⟩⟩ <;>
    first
    | rfl
    | exact absurd rfl h

/-- C4: encoding any record with `Record::to_string_record` and decoding
the result with `Record::try_from` succeeds and returns the original
record, for both the 5-field (no quality offset) and 6-field shapes. -/
theorem record_codec_round_trip (r : Record) :
    (Record.try_from r.to_string_record).1 = .ok r := by
  obtain ⟨name, len, off, lb, lw, qo⟩ := r
  cases qo with
  | none =>
    have h : Record.to_string_record ⟨name, len, off, lb, lw, none⟩ =
        [name, natToString len, natToString off, natToString lb, natToString lw] := rfl
    rw [h, try_from_five_fields]
    simp only [deserializeRecord, parseNatStr_natToString, parseOptNatStr_empty]
  | some q =>
    have h : Record.to_string_record ⟨name, len, off, lb, lw, some q⟩ =
        [name, natToString len, natToString off, natToString lb, natToString lw,
         natToString q] := rfl
    rw [h, try_from_six_fields]
    simp only [deserializeRecord, parseNatStr_natToString, parseOptNatStr_natToString]

theorem record_codec_round_trip_witness :
    (Record.try_from (Record.to_string_record ⟨"x", 1, 2, 3, 4, none⟩)).1 =
      .ok ⟨"x", 1, 2, 3, 4, none⟩ :=
  record_codec_round_trip ⟨"x", 1, 2, 3, 4, none⟩

/-- C5: decoding a 5-field string record yields `qual_offset = none`, a
6-field record parses the 6th field into `qual_offset`, and any other
field count is an Input error; concretely `name\t1\t2\t3\t4\t5` decodes to
`{name, 1, 2, 3, 4, Some 5}` and the 4-field `name\t1\t2\t3` is an Input
error. -/
theorem record_decode_field_counts :
    ((Record.try_from ["name", "1", "2", "3", "4", "5"]).1 =
        .ok ⟨"name", 1, 2, 3, 4, some 5⟩) ∧
    (∃ e, (Record.try_from ["name", "1", "2", "3"]).1 = .error e ∧ e.kind = .Input) ∧
    (∀ ls : List String, ls.length ≠ 5 → ls.length ≠ 6 →
      ∃ e, (Record.try_from ls).1 = .error e ∧ e.kind = .Input) ∧
    (∀ ls : List String, ls.length = 5 → ∀ r, (Record.try_from ls).1 = .ok r →
      r.qual_offset = none) ∧
    (∀ (a b c d e f : String) (r : Record),
      (Record.try_from [a, b, c, d, e, f]).1 = .ok r →
      parseOptNatStr f = some r.qual_offset) := by
  refine ⟨by decide, ⟨⟨.Input, "deserialize error"⟩, by decide, rfl⟩, ?_, ?_, ?_⟩
  · intro ls h5 h6
    unfold Record.try_from
    by_cases h7 : ls.length > 6
    · rw [if_pos h7]
      exact ⟨_, rfl, rfl⟩
    · rw [if_neg h7]
      simp only [if_neg h5]
      exact ⟨_, deserializeRecord_ne_six ls h6, rfl⟩
  · intro ls h5 r hr
    rcases ls with _ | ⟨a, _ | ⟨b, _ | ⟨c, _ | ⟨d, _ | ⟨e, rest⟩⟩⟩⟩⟩ <;>
      try (exfalso; simp only [List.length_cons, List.length_nil] at h5; omega)
    obtain rfl : rest = [] := by
      simp only [List.length_cons] at h5
      exact List.length_eq_zero.mp (by omega)
    rw [try_from_five_fields] at hr
    simp only [deserializeRecord, parseOptNatStr_empty] at hr
    split at hr
    · rename_i heq
      injection heq with heq
      injection hr with hr
      subst hr
      exact heq.symm
    · exact Except.noConfusion hr
  · intro a b c d e f r hr
    rw [try_from_six_fields] at hr
    simp only [deserializeRecord] at hr
    split at hr
    · rename_i heq
      injection hr with hr
      subst hr
      exact heq
    · exact Except.noConfusion hr

theorem record_decode_field_counts_witness :
    ∃ e, (Record.try_from ["a"]).1 = .error e ∧ e.kind = .Input :=
  record_decode_field_counts.2.2.1 ["a"] (by decide) (by decide)

theorem try_from_mutates_five_field_input_witness :
    (Record.try_from ["a", "1", "2", "3", "4"]).2 = ["a", "1", "2", "3", "4"] ++ [""] ∧
    (Record.try_from ["b", "1", "2", "3", "4", "5"]).2 = ["b", "1", "2", "3", "4", "5"] :=
  ⟨(try_from_mutates_five_field_input _).1 rfl,
   (try_from_mutates_five_field_input _).2 rfl⟩

/-! ## Helper lemmas for the indexer -/

theorem common_read_line_at_end (s : Indexer) (h : s.input.length ≤ s.pos) :
    common_read_line s = .error ⟨.Eof, "end of file"⟩ := by
  unfold common_read_line
  rw [List.drop_eq_nil_of_le h]
  rfl

/-- C2: the two-tier end-of-file latch: the first zero-byte read comes
back as `Ok(0)` and sets the `eof` flag, later ones are `Eof`-kind
errors; a read attempted at a record boundary after end of input fails
with an `Eof`-kind error, which the `Records` iterator maps to `None`. -/
theorem indexer_eof_two_tier_latch :
    (∀ s : Indexer, s.input.length ≤ s.pos → s.eof = false →
      Indexer.read_line s = .ok (0, { s with eof := true })) ∧
    (∀ s : Indexer, s.input.length ≤ s.pos → s.eof = true →
      Indexer.read_line s = .error ⟨.Eof, "end of file"⟩) ∧
    (∀ s : Indexer, s.buffer = [] → s.eof = true → s.input.length ≤ s.pos →
      ∃ e, Indexer.read s Record.new = .error e ∧ e.kind = .Eof) ∧
    (∀ (s : Indexer) (e : Error), Indexer.read s Record.new = .error e → e.kind = .Eof →
      Records.next s = none) := by
  refine ⟨?_, ?_, ?_, ?_⟩
  · intro s hp he
    unfold Indexer.read_line
    rw [common_read_line_at_end s hp]
    simp [he]
  · intro s hp he
    unfold Indexer.read_line
    rw [common_read_line_at_end s hp]
    simp [he]
  · intro s hb he hp
    have hrl : Indexer.read_line s = .error ⟨.Eof, "end of file"⟩ := by
      unfold Indexer.read_line
      rw [common_read_line_at_end s hp]
      simp [he]
    refine ⟨⟨.Eof, "end of file"⟩, ?_, rfl⟩
    unfold Indexer.read Indexer.read_description
    rw [hb]
    simp [hrl, Except.map]
  · intro s e hr hk
    unfold Records.next
    rw [hr]
    simp [hk]

theorem indexer_eof_two_tier_latch_witness :
    (Indexer.read_line (Indexer.mk [65, 10] 2 .FASTA [] 0 false) =
      .ok (0, Indexer.mk [65, 10] 2 .FASTA [] 0 true)) ∧
    (Indexer.read_line (Indexer.mk [65, 10] 2 .FASTA [] 0 true) =
      .error ⟨.Eof, "end of file"⟩) ∧
    (∃ e, Indexer.read (Indexer.mk [65, 10] 2 .FASTA [] 0 true) Record.new = .error e ∧
      e.kind = .Eof) ∧
    (Records.next (Indexer.mk [65, 10] 2 .FASTA [] 0 true) = none) :=
  ⟨indexer_eof_two_tier_latch.1 _ (by decide) rfl,
   indexer_eof_two_tier_latch.2.1 _ (by decide) rfl,
   indexer_eof_two_tier_latch.2.2.1 _ rfl rfl (by decide),
   indexer_eof_two_tier_latch.2.2.2 _ ⟨.Eof, "end of file"⟩ (by decide) rfl⟩

/-- C8: whenever the first buffered or freshly read line does not start
with the configured format's header byte (an empty input included),
`Indexer::read` fails with an Input-kind error. -/
theorem read_missing_header_input_error :
    (∀ (s : Indexer) (r : Record), s.buffer ≠ [] →
      is_description s.buffer s.format = false →
      ∃ e, Indexer.read s r = .error e ∧ e.kind = .Input) ∧
    (∀ (s : Indexer) (r : Record), s.buffer = [] → s.eof = false →
      is_description (takeLine (s.input.drop s.pos)) s.format = false →
      ∃ e, Indexer.read s r = .error e ∧ e.kind = .Input) := by
  constructor
  · intro s r hb hd
    refine ⟨⟨.Input, "invalid input format"⟩, ?_, rfl⟩
    have hbe : s.buffer.isEmpty = false := by
      cases hbb : s.buffer with
      | nil => exact absurd hbb hb
      | cons x xs => rfl
    unfold Indexer.read Indexer.read_description get_name
    rw [hbe]
    simp [hd]
  · intro s r hb he hd
    refine ⟨⟨.Input, "invalid input format"⟩, ?_, rfl⟩
    unfold Indexer.read Indexer.read_description Indexer.read_line common_read_line
    by_cases hc : (takeLine (s.input.drop s.pos)).length = 0
    · have hnil : takeLine (s.input.drop s.pos) = [] := List.length_eq_zero.mp hc
      simp [hb, hnil, he, get_name, is_description, Except.map, List.prefix_nil]
    · simp [hb, hc, he, get_name, hd, Except.map]

theorem read_missing_header_input_error_witness :
    (∃ e, Indexer.read (Indexer.mk (strBytes "oops\n") 0 .FASTA (strBytes "bad\n") 0 false)
        Record.new = .error e ∧ e.kind = .Input) ∧
    (∃ e, Indexer.read (Indexer.new (strBytes "hello\n") .FASTA) Record.new = .error e ∧
      e.kind = .Input) :=
  ⟨read_missing_header_input_error.1 _ Record.new (by decide) (by decide),
   read_missing_header_input_error.2 _ Record.new rfl rfl (by decide)⟩

theorem read_line_inv (s : Indexer) (n : Nat) (s' : Indexer)
    (h : Indexer.read_line s = .ok (n, s')) : s'.format = s.format := by
  unfold Indexer.read_line at h
  split at h
  · split at h
    · split at h
      · exact Except.noConfusion h
      · injection h with h
        injection h with h1 h2
        subst h2
        rfl
    · exact Except.noConfusion h
  · rename_i p heq
    injection h with h
    subst h
    unfold common_read_line at heq
    split at heq
    · exact Except.noConfusion heq
    · injection heq with heq
      injection heq with h1 h2
      subst h2
      rfl

theorem read_description_inv (s : Indexer) (r : Record) (s' : Indexer) (r' : Record)
    (h : Indexer.read_description s r = .ok (s', r')) :
    r'.qual_offset = r.qual_offset ∧ s'.format = s.format := by
  unfold Indexer.read_description at h
  split at h
  · exact Except.noConfusion h
  · rename_i s2 heq
    split at h
    · exact Except.noConfusion h
    · injection h with h
      injection h with h1 h2
      subst h1
      subst h2
      refine ⟨rfl, ?_⟩
      show s2.format = s.format
      by_cases hbe : s.buffer.isEmpty
      · rw [if_pos hbe] at heq
        cases hrl : Indexer.read_line s with
        | error e => rw [hrl] at heq; exact Except.noConfusion heq
        | ok p =>
          rw [hrl] at heq
          injection heq with heq
          rw [← heq]
          exact read_line_inv s p.1 p.2 (by rw [hrl])
      · rw [if_neg hbe] at heq
        injection heq with heq
        rw [← heq]

theorem read_sequence_line_inv (s : Indexer) (r : Record) (s' : Indexer) (r' : Record)
    (h : Indexer.read_sequence_line s r = .ok (s', r')) :
    r'.qual_offset = r.qual_offset ∧ s'.format = s.format := by
  unfold Indexer.read_sequence_line at h
  split at h
  · exact Except.noConfusion h
  · rename_i num_bytes s2 heq
    have hfmt : s2.format = s.format :=
      read_line_inv { s with buffer := [] } num_bytes s2 heq
    split at h
    · injection h with h
      injection h with h1 h2
      subst h1
      subst h2
      exact ⟨rfl, hfmt⟩
    · split at h
      · exact Except.noConfusion h
      · rename_i r2 heq2
        split at h
        · exact Except.noConfusion h
        · rename_i cb heq3
          injection h with h
          injection h with h1 h2
          subst h1
          subst h2
          refine ⟨?_, hfmt⟩
          show r2.qual_offset = r.qual_offset
          split at heq2
          · split at heq2
            · exact Except.noConfusion heq2
            · injection heq2 with heq2
              rw [← heq2]
          · split at heq2
            · exact Except.noConfusion heq2
            · injection heq2 with heq2
              rw [← heq2]

theorem read_sequence_go_inv (fuel : Nat) :
    ∀ (s : Indexer) (r : Record) (s' : Indexer) (r' : Record),
      Indexer.read_sequence_go fuel s r = .ok (s', r') →
      r'.qual_offset = r.qual_offset ∧ s'.format = s.format := by
  induction fuel with
  | zero => intro s r s' r' h; exact Except.noConfusion h
  | succ n ih =>
    intro s r s' r' h
    simp only [Indexer.read_sequence_go] at h
    split at h
    · injection h with h
      injection h with h1 h2
      subst h1
      subst h2
      exact ⟨rfl, rfl⟩
    · split at h
      · exact Except.noConfusion h
      · rename_i s2 r2 heq
        obtain ⟨hq, hf⟩ := read_sequence_line_inv s r s2 r2 heq
        obtain ⟨hq2, hf2⟩ := ih s2 r2 s' r' h
        exact ⟨hq2.trans hq, hf2.trans hf⟩

theorem read_plus_inv (s : Indexer) (r : Record) (s' : Indexer) (r' : Record)
    (h : Indexer.read_plus s r = .ok (s', r')) :
    r'.qual_offset = (if s.format = .FASTA then r.qual_offset else some s.pos) := by
  unfold Indexer.read_plus at h
  by_cases hf : s.format = .FASTA
  · rw [if_pos hf] at h ⊢
    injection h with h
    injection h with h1 h2
    subst h2
    rfl
  · rw [if_neg hf] at h ⊢
    injection h with h
    injection h with h1 h2
    subst h2
    rfl

/-- C9: a record successfully produced by `Indexer::read` from a cleared
record carries `qual_offset = Some _` exactly when the configured format
is FASTQ; under FASTA it stays `None`. -/
theorem qual_offset_iff_fastq (s s' : Indexer) (r : Record)
    (h : Indexer.read s Record.new = .ok (s', r)) :
    (r.qual_offset.isSome = true ↔ s.format = .FASTQ) := by
  unfold Indexer.read at h
  split at h
  · exact Except.noConfusion h
  · rename_i s1 r1 heq1
    split at h
    · exact Except.noConfusion h
    · rename_i s2 r2 heq2
      split at h
      · exact Except.noConfusion h
      · rename_i s3 r3 heq3
        split at h
        · exact Except.noConfusion h
        · rename_i s4 heq4
          injection h with h
          injection h with h1 h2
          subst h2
          obtain ⟨hq1, hf1⟩ := read_description_inv _ _ _ _ heq1
          have heq2' : Indexer.read_sequence_go (s1.input.length + 2)
              { s1 with sequence_num_bytes := 0 } r1 = .ok (s2, r2) := heq2
          obtain ⟨hq2, hf2⟩ := read_sequence_go_inv _ _ _ _ _ heq2'
          have hq3 := read_plus_inv _ _ _ _ heq3
          have hfmt : s2.format = s.format := by
            rw [hf2]
            exact hf1
          rw [hq3, hq2, hq1, hfmt]
          cases hfs : s.format with
          | FASTA => simp [Record.new]
          | FASTQ => simp [Record.new]

theorem qual_offset_iff_fastq_witness :
    (Record.mk "one" 66 5 30 31 none).qual_offset.isSome = true ↔
      (Indexer.new fastaInput .FASTA).format = .FASTQ :=
  qual_offset_iff_fastq (Indexer.new fastaInput .FASTA)
    (Indexer.mk fastaInput 98 .FASTA (strBytes ">two another chromosome\n") 69 false)
    (Record.mk "one" 66 5 30 31 none) (by decide)

theorem count_bases_error_kind (l : List Nat) (e : Error) (h : count_bases l = .error e) :
    e.kind = .TypeConversion := by
  unfold count_bases at h
  split at h
  · injection h with h
    rw [← h]
  · exact Except.noConfusion h

/-- C3: once `line_width` is established (non-zero), reading a
non-terminator sequence line fails with an Input-kind error exactly when
the line's raw byte count exceeds `line_width`; a strictly shorter line in
the middle of a record is tolerated (it reads successfully whenever its
content is valid text). -/
theorem sequence_line_width_input_error_iff (s : Indexer) (r : Record) (n : Nat) (s₁ : Indexer)
    (hrl : Indexer.read_line { s with buffer := [] } = .ok (n, s₁))
    (hse : is_sequence_end s₁.buffer s₁.format = false)
    (hlw : r.line_width ≠ 0) :
    ((∃ e, Indexer.read_sequence_line s r = .error e ∧ e.kind = .Input) ↔ r.line_width < n) ∧
    (n ≤ r.line_width → ∀ cb, count_bases s₁.buffer = .ok cb →
      Indexer.read_sequence_line s r =
        .ok ({ s₁ with sequence_num_bytes := s₁.sequence_num_bytes + n },
             { r with length := r.length + cb })) := by
  unfold Indexer.read_sequence_line
  rw [hrl]
  simp only [hse, Bool.false_eq_true, if_false, if_neg hlw]
  by_cases hw : r.line_width < n
  · rw [if_pos hw]
    constructor
    · exact ⟨fun _ => hw, fun _ => ⟨⟨.Input, "invalid record"⟩, rfl, rfl⟩⟩
    · intro hle
      omega
  · rw [if_neg hw]
    constructor
    · constructor
      · intro ⟨e, he, hk⟩
        cases hcb : count_bases s₁.buffer with
        | error e2 =>
          rw [hcb] at he
          injection he with he
          subst he
          exact absurd (count_bases_error_kind _ _ hcb) (by rw [hk]; intro hcontr; exact ErrorKind.noConfusion hcontr)
        | ok cb =>
          rw [hcb] at he
          exact Except.noConfusion he
      · intro hcontr
        exact absurd hcontr hw
    · intro hle cb hcb
      rw [hcb]

theorem sequence_line_width_input_error_iff_witness :
    ((∃ e, Indexer.read_sequence_line (Indexer.mk (strBytes "AB\n") 0 .FASTA [] 0 false)
        (Record.mk "" 0 0 0 3 none) = .error e ∧ e.kind = .Input) ↔
      (Record.mk "" 0 0 0 3 none).line_width < 3) ∧
    (3 ≤ (Record.mk "" 0 0 0 3 none).line_width → ∀ cb,
      count_bases (Indexer.mk (strBytes "AB\n") 3 .FASTA (strBytes "AB\n") 0 false).buffer =
        .ok cb →
      Indexer.read_sequence_line (Indexer.mk (strBytes "AB\n") 0 .FASTA [] 0 false)
          (Record.mk "" 0 0 0 3 none) =
        .ok ({ Indexer.mk (strBytes "AB\n") 3 .FASTA (strBytes "AB\n") 0 false with
                 sequence_num_bytes :=
                   (Indexer.mk (strBytes "AB\n") 3 .FASTA (strBytes "AB\n") 0 false).sequence_num_bytes + 3 },
             { Record.mk "" 0 0 0 3 none with
                 length := (Record.mk "" 0 0 0 3 none).length + cb })) :=
  sequence_line_width_input_error_iff (Indexer.mk (strBytes "AB\n") 0 .FASTA [] 0 false)
    (Record.mk "" 0 0 0 3 none) 3 (Indexer.mk (strBytes "AB\n") 3 .FASTA (strBytes "AB\n") 0 false)
    (by decide) (by decide) (by decide)

/-- C6: for FASTQ the Quality phase advances the stream by exactly the
raw byte count of the sequence block and then reads one more line (the
lookahead for the next record's header); on the canonical FASTQ example
the two records come out as `{fastq1, 66, 8, 30, 31, 79}` and a second
record named `fastq2` with offset 156. -/
theorem fastq_quality_phase_advance :
    (∀ s : Indexer, s.format = .FASTQ → s.pos + s.sequence_num_bytes ≤ s.input.length →
      Indexer.read_quality s =
        (Indexer.read_line { s with pos := s.pos + s.sequence_num_bytes }).map (fun p => p.2)) ∧
    (fastqRun = .ok (⟨"fastq1", 66, 8, 30, 31, some 79⟩,
                     ⟨"fastq2", 28, 156, 14, 15, some 188⟩)) := by
  constructor
  · intro s hf hle
    unfold Indexer.read_quality Indexer.consume
    rw [if_neg (by rw [hf]; intro hcontr; exact Format.noConfusion hcontr)]
    rw [Nat.min_eq_left hle]
    cases h : Indexer.read_line { s with pos := s.pos + s.sequence_num_bytes } with
    | error e => rfl
    | ok p =>
      obtain ⟨n2, s2⟩ := p
      rfl
  · decide

theorem fastq_quality_phase_advance_witness :
    Indexer.read_quality (Indexer.mk (strBytes "abc\ndef\n") 0 .FASTQ [] 4 false) =
      (Indexer.read_line (Indexer.mk (strBytes "abc\ndef\n") 4 .FASTQ [] 4 false)).map
        (fun p => p.2) :=
  fastq_quality_phase_advance.1 (Indexer.mk (strBytes "abc\ndef\n") 0 .FASTQ [] 4 false)
    rfl (by decide)

/-! ## Helper lemmas about trimming and space splitting (for the header
name extraction) -/

theorem splitSpace_ne_nil (l : List Char) : splitSpace l ≠ [] := by
  cases l with
  | nil => simp [splitSpace]
  | cons c rest =>
    unfold splitSpace
    by_cases h : c = ' '
    · rw [if_pos h]
      exact List.cons_ne_nil _ _
    · rw [if_neg h]
      cases hs : splitSpace rest with
      | nil => exact List.cons_ne_nil _ _
      | cons g gs => exact List.cons_ne_nil _ _

theorem splitSpace_take_one (l : List Char) :
    ((splitSpace l).take 1).flatten = l.takeWhile (fun c => c ≠ ' ') := by
  induction l with
  | nil => rfl
  | cons c rest ih =>
    unfold splitSpace
    by_cases h : c = ' '
    · rw [if_pos h]
      subst h
      simp [List.takeWhile_cons]
    · rw [if_neg h]
      cases hs : splitSpace rest with
      | nil => exact absurd hs (splitSpace_ne_nil rest)
      | cons g gs =>
        have ihg : g = rest.takeWhile (fun c => c ≠ ' ') := by
          rw [hs] at ih
          simpa using ih
        simp [List.takeWhile_cons, h, ihg]

theorem parse_sequence_name_eq_spec (cs : List Char) :
    parse_sequence_name cs = specSequenceName cs := by
  unfold parse_sequence_name specSequenceName
  rw [splitSpace_take_one]

theorem head?_dropWhile_false (p : Char → Bool) (l : List Char) (a : Char)
    (h : (l.dropWhile p).head? = some a) : p a = false := by
  induction l with
  | nil => exact Option.noConfusion h
  | cons b t ih =>
    rw [List.dropWhile_cons] at h
    split at h
    · exact ih h
    · rename_i hb
      injection h with h
      subst h
      cases hpb : p b with
      | true => exact absurd hpb hb
      | false => rfl

theorem head?_eq_of_isPrefix (u l : List Char) (hu : u <+: l) (hne : u ≠ []) :
    u.head? = l.head? := by
  obtain ⟨t, rfl⟩ := hu
  cases u with
  | nil => exact absurd rfl hne
  | cons a b => rfl

theorem reverse_dropWhile_reverse_isPrefix (p : Char → Bool) (l : List Char) :
    ((l.reverse.dropWhile p).reverse) <+: l := by
  have h1 : l.reverse.dropWhile p <:+ l.reverse := List.dropWhile_suffix p
  have h2 := List.reverse_prefix.mpr h1
  rwa [List.reverse_reverse] at h2

theorem trimChars_eq_nil_iff (l : List Char) :
    trimChars l = [] ↔ ∀ c ∈ l, rustIsWhitespace c = true := by
  unfold trimChars
  rw [List.reverse_eq_nil_iff, List.dropWhile_eq_nil_iff]
  simp only [List.mem_reverse]
  constructor
  · intro h c hc
    rw [← List.takeWhile_append_dropWhile (p := rustIsWhitespace) (l := l)] at hc
    rcases List.mem_append.mp hc with h1 | h2
    · exact List.mem_takeWhile_imp h1
    · exact h c h2
  · intro h c hc
    exact h c ((List.dropWhile_sublist _).subset hc)

theorem trimChars_head?_not_ws (l : List Char) (a : Char)
    (h : (trimChars l).head? = some a) : rustIsWhitespace a = false := by
  have hne : trimChars l ≠ [] := by
    intro hnil
    rw [hnil] at h
    exact Option.noConfusion h
  have hpre : trimChars l <+: l.dropWhile rustIsWhitespace :=
    reverse_dropWhile_reverse_isPrefix rustIsWhitespace (l.dropWhile rustIsWhitespace)
  rw [head?_eq_of_isPrefix _ _ hpre hne] at h
  exact head?_dropWhile_false _ _ _ h

theorem specSequenceName_ne_nil (cs : List Char)
    (h : ∃ c ∈ cs, rustIsWhitespace c = false) : specSequenceName cs ≠ [] := by
  obtain ⟨c, hc, hcw⟩ := h
  have h1 : trimChars cs ≠ [] := by
    intro hnil
    rw [trimChars_eq_nil_iff] at hnil
    rw [hnil c hc] at hcw
    exact Bool.noConfusion hcw
  obtain ⟨a, ha⟩ : ∃ a, (trimChars cs).head? = some a := by
    cases hte : trimChars cs with
    | nil => exact absurd hte h1
    | cons x t => exact ⟨x, rfl⟩
  have haw : rustIsWhitespace a = false := trimChars_head?_not_ws cs a ha
  have hasp : ¬(a = ' ') := by
    intro hsp
    rw [hsp] at haw
    exact absurd haw (by decide)
  have h2 : ((trimChars cs).takeWhile (fun c => c ≠ ' ')).head? = some a := by
    cases hte : trimChars cs with
    | nil => rw [hte] at ha; exact Option.noConfusion ha
    | cons x t =>
      rw [hte] at ha
      injection ha with ha
      subst ha
      simp [List.takeWhile_cons, hasp]
  intro hnil
  unfold specSequenceName at hnil
  rw [trimChars_eq_nil_iff] at hnil
  have hamem : a ∈ (trimChars cs).takeWhile (fun c => c ≠ ' ') := by
    cases htw : (trimChars cs).takeWhile (fun c => c ≠ ' ') with
    | nil => rw [htw] at h2; exact Option.noConfusion h2
    | cons x t =>
      rw [htw] at h2
      injection h2 with h2
      subst h2
      exact List.mem_cons_self _ _
  rw [hnil a hamem] at haw
  exact Bool.noConfusion haw

/-- C7 counterexample: the header `>a\tb c` begins with the FASTA prefix,
and the text after the prefix up to its first whitespace character (the
tab) is `a`; but `get_name` extracts `a\tb` — the code only splits on the
space character, not on general whitespace, so the claimed description of
the name is false at this input. -/
theorem get_name_whitespace_counterexample :
    get_name (strBytes ">a\tb c") .FASTA = .ok "a\tb" ∧ ("a\tb" : String) ≠ "a" := by
  constructor
  · decide
  · decide

/-- C7 (amended): for a header line starting with the format's prefix
byte whose remainder is valid text, the extracted name is obtained by
trimming the text after the prefix, cutting at the first space character
(U+0020 only, not general whitespace), and trimming again; it is
non-empty whenever the text after the prefix contains any non-whitespace
character (but may be empty otherwise). -/
theorem get_name_trim_then_space_split (line : List Nat) (format : Format) (cs : List Char)
    (hdesc : is_description line format = true)
    (hutf : utf8Decode (line.drop 1) = some cs) :
    get_name line format = .ok ⟨specSequenceName cs⟩ ∧
    ((∃ c ∈ cs, rustIsWhitespace c = false) → specSequenceName cs ≠ []) := by
  constructor
  · unfold get_name
    rw [if_pos hdesc, hutf]
    show (Except.ok (String.mk (parse_sequence_name cs)) : Result String) =
      Except.ok (String.mk (specSequenceName cs))
    rw [parse_sequence_name_eq_spec]
  · exact specSequenceName_ne_nil cs

theorem get_name_trim_then_space_split_witness :
    (get_name (strBytes ">name extra") .FASTA = .ok ⟨specSequenceName ("name extra").toList⟩) ∧
    ((∃ c ∈ ("name extra").toList, rustIsWhitespace c = false) →
      specSequenceName ("name extra").toList ≠ []) :=
  get_name_trim_then_space_split (strBytes ">name extra") .FASTA ("name extra").toList
    (by decide) (by decide)

end RustSamtools
